import Mathlib

/-!
Verification of the todo-app state engine.

This file shallowly embeds the core of the application's main script
(`app.js`): the `StateManager` class (state, history/undo/redo, projection of
`filteredTasks`), the `Storage.importData` merge, and `UI.reorderTasks`.
JavaScript strings are Lean `String`s, ISO-8601 timestamps are `Nat`s
(chronological order on ISO strings is lexicographic, hence order-isomorphic
to `Nat`), and the nondeterministic inputs (`Date.now`, `Utils.generateId`)
are passed as explicit parameters.  Fields carried as JS objects with
optional keys become structures of `Option` fields.
-/

namespace TodoApp

/-- Character-level model of `String.prototype.trim`: drop whitespace from
both ends. -/
def jsTrimList (l : List Char) : List Char :=
  ((l.dropWhile Char.isWhitespace).reverse.dropWhile Char.isWhitespace).reverse

/-- Model of `String.prototype.trim`. -/
def jsTrim (s : String) : String :=
  String.mk (jsTrimList s.data)

/-- Model of `String.prototype.toLowerCase` (character-wise lowercasing). -/
def jsToLowerStr (s : String) : String :=
  String.mk (s.data.map Char.toLower)

/-- Model of `String.prototype.includes` on character lists: `sub` occurs
contiguously inside `hay`. -/
def listContainsSub (hay sub : List Char) : Bool :=
  match hay with
  | [] => sub.isEmpty
  | _ :: t => sub.isPrefixOf hay || listContainsSub t sub

/-- Model of `hay.includes(sub)` for strings. -/
def strIncludes (hay sub : String) : Bool :=
  listContainsSub hay.data sub.data

/-- The `Task` entity, as constructed by `StateManager.addTask`.  Timestamps
(`createdAt`, `updatedAt`, `dueAt`) are `Nat`s standing for ISO-8601 strings;
`priority` is the raw string field (one of `"high"`, `"medium"`, `"low"`,
`""`). -/
structure Task where
  id : String
  title : String
  notes : String
  completed : Bool
  createdAt : Nat
  updatedAt : Nat
  dueAt : Option Nat
  priority : String
  tags : List String
  parentId : Option String
  order : Nat
deriving DecidableEq, Repr

/-- A partial-fields object as passed to `StateManager.updateTask`; a `none`
field is an absent key, a `some` field is spread over the task by
`{ ...task, ...updates }`. -/
structure Updates where
  id : Option String := none
  title : Option String := none
  notes : Option String := none
  completed : Option Bool := none
  createdAt : Option Nat := none
  updatedAt : Option Nat := none
  dueAt : Option (Option Nat) := none
  priority : Option String := none
  tags : Option (List String) := none
  parentId : Option (Option String) := none
  order : Option Nat := none
deriving DecidableEq, Repr

/-- The object spread `{ ...task, ...updates }`: present keys of `updates`
override the task's fields. -/
def applyUpdates (t : Task) (u : Updates) : Task :=
  { id := u.id.getD t.id
    title := u.title.getD t.title
    notes := u.notes.getD t.notes
    completed := u.completed.getD t.completed
    createdAt := u.createdAt.getD t.createdAt
    updatedAt := u.updatedAt.getD t.updatedAt
    dueAt := u.dueAt.getD t.dueAt
    priority := u.priority.getD t.priority
    tags := u.tags.getD t.tags
    parentId := u.parentId.getD t.parentId
    order := u.order.getD t.order }

/-- Draft data passed to `StateManager.addTask`; the UI passes
`{title, dueAt, priority, tags}`, redo passes a whole stored task.  `none`
models an absent or `null`/falsy key where the code coalesces with `||`. -/
structure TaskDraft where
  title : String
  notes : Option String := none
  dueAt : Option Nat := none
  priority : Option String := none
  tags : Option (List String) := none
  parentId : Option String := none
  order : Option Nat := none
deriving DecidableEq, Repr

/-- View a stored task as the draft object `executeAction` feeds back into
`addTask` when replaying an `ADD_TASK` action. -/
def draftOfTask (t : Task) : TaskDraft :=
  { title := t.title, notes := some t.notes, dueAt := t.dueAt
    priority := some t.priority, tags := some t.tags
    parentId := t.parentId, order := some t.order }

/-- Lookup in `TASK_PRIORITIES` with the `|| TASK_PRIORITIES.none` fallback:
any string other than the three named levels has order value 0. -/
def priorityOrderVal (p : String) : Nat :=
  if p = "high" then 3 else if p = "medium" then 2 else if p = "low" then 1 else 0

/-- Map an `Ordering` to the sign convention of a JS comparator. -/
def orderingToInt : Ordering → Int
  | .lt => -1
  | .eq => 0
  | .gt => 1

/-- The comparator passed to `Array.prototype.sort` in
`StateManager.sortTasks`, returning a signed number.  `localeCompare` is
modelled as code-point lexicographic comparison. -/
def sortCmp (sortType : String) (a b : Task) : Int :=
  if sortType = "due" then
    match a.dueAt, b.dueAt with
    | none, none => (b.createdAt : Int) - (a.createdAt : Int)
    | none, some _ => 1
    | some _, none => -1
    | some da, some db => (da : Int) - (db : Int)
  else if sortType = "priority" then
    let d : Int := (priorityOrderVal b.priority : Int) - (priorityOrderVal a.priority : Int)
    if d ≠ 0 then d else (b.createdAt : Int) - (a.createdAt : Int)
  else if sortType = "title" then
    orderingToInt (compare a.title b.title)
  else if sortType = "manual" then
    (a.order : Int) - (b.order : Int)
  else
    (b.createdAt : Int) - (a.createdAt : Int)

/-- Stable insertion of `x` (originally positioned before every element of
the sorted tail) into an already sorted list: `x` is placed before the first
element it need not follow. -/
def insertSorted (le : Task → Task → Bool) (x : Task) : List Task → List Task
  | [] => [x]
  | y :: ys => if le x y then x :: y :: ys else y :: insertSorted le x ys

/-- Stable comparison sort (insertion sort).  `Array.prototype.sort` is
required to be stable, and the comparators above are total preorders, so a
stable insertion sort computes the same list. -/
def stableSortBy (le : Task → Task → Bool) : List Task → List Task
  | [] => []
  | x :: xs => insertSorted le x (stableSortBy le xs)

/-- `StateManager.sortTasks`. -/
def sortTasks (tasks : List Task) (sortType : String) : List Task :=
  stableSortBy (fun a b => sortCmp sortType a b ≤ 0) tasks

/-- The application state record owned by `StateManager`.  `selectedTasks`
is a JS `Set` of ids, modelled as a list of ids. -/
structure AppState where
  tasks : List Task
  filteredTasks : List Task
  selectedTasks : List String
  currentFilter : String
  currentSort : String
  searchQuery : String
  activeTagFilters : List String
  theme : String
  isLoading : Bool
  editingTask : Option Task
deriving DecidableEq, Repr

/-- The status-filter stage of `StateManager.updateFilteredTasks` (the
`switch` on `currentFilter`; any other value passes everything through). -/
def statusFilter (currentFilter : String) (ts : List Task) : List Task :=
  if currentFilter = "active" then ts.filter (fun t => !t.completed)
  else if currentFilter = "completed" then ts.filter (fun t => t.completed)
  else ts

/-- The predicate inside the search stage of
`StateManager.updateFilteredTasks`, applied with
`query = searchQuery.toLowerCase()` (note: the code lowercases but does not
trim the query it matches with).  The `task.notes && ...` truthiness guard
is the emptiness test on `notes`. -/
def matchesSearch (query : String) (t : Task) : Bool :=
  strIncludes (jsToLowerStr t.title) query ||
  ((t.notes != "") && strIncludes (jsToLowerStr t.notes) query) ||
  t.tags.any (fun tag => strIncludes (jsToLowerStr tag) query)

/-- The search stage of `StateManager.updateFilteredTasks`: guarded by
`searchQuery.trim()` being truthy (non-empty), but matching with the
untrimmed lowercased query. -/
def searchFilter (searchQuery : String) (ts : List Task) : List Task :=
  if jsTrim searchQuery != "" then
    ts.filter (matchesSearch (jsToLowerStr searchQuery))
  else ts

/-- The tag-filter stage of `StateManager.updateFilteredTasks`: every active
tag filter must match one of the task's tags case-insensitively. -/
def tagFilter (activeTagFilters : List String) (ts : List Task) : List Task :=
  if activeTagFilters.length > 0 then
    ts.filter (fun t =>
      activeTagFilters.all (fun f => t.tags.any (fun tg => jsToLowerStr tg == jsToLowerStr f)))
  else ts

/-- `StateManager.updateFilteredTasks`, as the value assigned to
`state.filteredTasks`: status filter, then search, then tags, then sort. -/
def updateFilteredTasks (st : AppState) : List Task :=
  sortTasks (tagFilter st.activeTagFilters
    (searchFilter st.searchQuery
      (statusFilter st.currentFilter st.tasks))) st.currentSort

/-- The action descriptors recorded into history (`action.type` plus its
payload fields), including the `UNDO`/`REDO` markers that `setState` refuses
to record. -/
inductive Action where
  | addTaskAct (task : Task)
  | updateTaskAct (taskId : String) (updates : Updates)
  | deleteTaskAct (taskId : String)
  | toggleCompleteAct (taskId : String)
  | clearCompletedAct (count : Nat)
  | bulkCompleteAct (taskIds : List String)
  | bulkDeleteAct (taskIds : List String)
  | bulkSetPriorityAct (taskIds : List String) (priority : String)
  | undoAct
  | redoAct
deriving DecidableEq, Repr

/-- The guard `action.type !== 'UNDO' && action.type !== 'REDO'` in
`setState`. -/
def recordable : Action → Bool
  | .undoAct => false
  | .redoAct => false
  | _ => true

/-- One history log entry `{ prevState, action }`. -/
abbrev HEntry := AppState × Action

/-- `APP_CONFIG.historySize`. -/
def historySize : Nat := 10

/-- `Utils.deepClone` applied to the state object
(`JSON.parse(JSON.stringify(state))`).  A JS `Set` serialises to `{}`, so
the cloned snapshot loses `selectedTasks`; every other field survives the
JSON round trip unchanged. -/
def deepCloneState (s : AppState) : AppState :=
  { s with selectedTasks := [] }

/-- `StateManager.addToHistory` acting on the `(history, historyIndex)`
pair.  `historyIndex` is a JS number starting at `-1`, hence `Int`.
`history.slice(0, historyIndex + 1)` is `take (historyIndex + 1)` (for the
reachable `historyIndex ≥ -1`). -/
def addToHistory (hist : List HEntry) (idx : Int) (prevState : AppState)
    (action : Action) : List HEntry × Int :=
  let hist1 := if idx < (hist.length : Int) - 1 then hist.take (idx + 1).toNat else hist
  let hist2 := hist1 ++ [(prevState, action)]
  if (historySize : Int) < hist2.length then (hist2.drop 1, idx) else (hist2, idx + 1)

/-- The mutable fields of a `StateManager` instance that the claims touch
(`listeners` and the debounced-save closure are observer/persistence plumbing
with no effect on these claims). -/
structure SM where
  state : AppState
  history : List HEntry
  historyIndex : Int
deriving DecidableEq, Repr

/-- A partial state object passed to `setState`; `none` is an absent key. -/
structure StateUpdate where
  tasks : Option (List Task) := none
  filteredTasks : Option (List Task) := none
  selectedTasks : Option (List String) := none
  currentFilter : Option String := none
  currentSort : Option String := none
  searchQuery : Option String := none
  activeTagFilters : Option (List String) := none
  theme : Option String := none
  isLoading : Option Bool := none
  editingTask : Option (Option Task) := none
deriving DecidableEq, Repr

/-- The spread `{ ...this.state, ...newState }`. -/
def applyUpdate (s : AppState) (u : StateUpdate) : AppState :=
  { tasks := u.tasks.getD s.tasks
    filteredTasks := u.filteredTasks.getD s.filteredTasks
    selectedTasks := u.selectedTasks.getD s.selectedTasks
    currentFilter := u.currentFilter.getD s.currentFilter
    currentSort := u.currentSort.getD s.currentSort
    searchQuery := u.searchQuery.getD s.searchQuery
    activeTagFilters := u.activeTagFilters.getD s.activeTagFilters
    theme := u.theme.getD s.theme
    isLoading := u.isLoading.getD s.isLoading
    editingTask := u.editingTask.getD s.editingTask }

/-- A whole state object used as `newState` (as in
`setState(prevState, {type: 'UNDO'})`): every key is present. -/
def fullUpdate (s : AppState) : StateUpdate :=
  { tasks := some s.tasks, filteredTasks := some s.filteredTasks
    selectedTasks := some s.selectedTasks, currentFilter := some s.currentFilter
    currentSort := some s.currentSort, searchQuery := some s.searchQuery
    activeTagFilters := some s.activeTagFilters, theme := some s.theme
    isLoading := some s.isLoading, editingTask := some s.editingTask }

/-- The recompute condition in `setState`:
`newState.tasks || newState.currentFilter !== undefined ||
newState.searchQuery !== undefined || newState.activeTagFilters`.
The truthy keys (`tasks`, `activeTagFilters`) are always arrays when
present, hence truthy; note `currentSort` is absent from the condition. -/
def recomputeGate (u : StateUpdate) : Bool :=
  u.tasks.isSome || u.currentFilter.isSome || u.searchQuery.isSome ||
  u.activeTagFilters.isSome

/-- `StateManager.setState`: snapshot the previous state, merge `newState`,
record undoable actions into history, recompute `filteredTasks` when the
gate fires.  `emit` and the debounced save have no effect on this record. -/
def setState (sm : SM) (u : StateUpdate) (act : Option Action) : SM :=
  let prevState := deepCloneState sm.state
  let st1 := applyUpdate sm.state u
  let hi : List HEntry × Int :=
    match act with
    | some a =>
        if recordable a then addToHistory sm.history sm.historyIndex prevState a
        else (sm.history, sm.historyIndex)
    | none => (sm.history, sm.historyIndex)
  let st2 := if recomputeGate u then { st1 with filteredTasks := updateFilteredTasks st1 }
    else st1
  { state := st2, history := hi.1, historyIndex := hi.2 }

/-- `StateManager.addTask(taskData, addToHistory)`.  `now` stands for
`new Date().toISOString()` and `newId` for `Utils.generateId()`.  The
`taskData.order || this.state.tasks.length` coalescing treats an explicit
order of `0` as falsy, like the JS `||`. -/
def addTask (sm : SM) (d : TaskDraft) (record : Bool) (now : Nat)
    (newId : String) : Task × SM :=
  let task : Task :=
    { id := newId
      title := jsTrim d.title
      notes := d.notes.getD ""
      completed := false
      createdAt := now
      updatedAt := now
      dueAt := d.dueAt
      priority := d.priority.getD ""
      tags := d.tags.getD []
      parentId := d.parentId
      order := match d.order with
        | some o => if o = 0 then sm.state.tasks.length else o
        | none => sm.state.tasks.length }
  let newTasks := sm.state.tasks ++ [task]
  (task, setState sm { tasks := some newTasks }
    (if record then some (.addTaskAct task) else none))

/-- `StateManager.updateTask(taskId, updates, addToHistory)`.  Returns
`none` for the `false` early return when the id is not found; on success the
updated task has `updates` spread over it and `updatedAt` overwritten last.
The inner `none` branch is unreachable: `findIdx?` only returns in-range
indices. -/
def updateTask (sm : SM) (taskId : String) (u : Updates) (record : Bool)
    (now : Nat) : Option Task × SM :=
  match sm.state.tasks.findIdx? (fun t => t.id == taskId) with
  | none => (none, sm)
  | some i =>
      match sm.state.tasks.get? i with
      | none => (none, sm)
      | some old =>
          let updatedTask := { applyUpdates old u with updatedAt := now }
          let newTasks := sm.state.tasks.set i updatedTask
          (some updatedTask, setState sm { tasks := some newTasks }
            (if record then some (.updateTaskAct taskId u) else none))

/-- `StateManager.deleteTask(taskId, addToHistory)`: filters the task out
(recording the action regardless of whether anything was removed), then
evicts the id from the live state's `selectedTasks`. -/
def deleteTask (sm : SM) (taskId : String) (record : Bool) : SM :=
  let newTasks := sm.state.tasks.filter (fun t => t.id != taskId)
  let sm1 := setState sm { tasks := some newTasks }
    (if record then some (.deleteTaskAct taskId) else none)
  { sm1 with state :=
      { sm1.state with selectedTasks := sm1.state.selectedTasks.filter (fun i => i != taskId) } }

/-- `StateManager.toggleTaskComplete(taskId, addToHistory)`: `find` the
task, return `false` (`none`) if absent, otherwise flip `completed` through
`updateTask`. -/
def toggleTaskComplete (sm : SM) (taskId : String) (record : Bool)
    (now : Nat) : Option Task × SM :=
  match sm.state.tasks.find? (fun t => t.id == taskId) with
  | none => (none, sm)
  | some task => updateTask sm taskId { completed := some (!task.completed) } record now

/-- `StateManager.clearCompleted()`: one recorded action removing every
completed task; returns the removed count. -/
def clearCompleted (sm : SM) : Nat × SM :=
  let completedTasks := sm.state.tasks.filter (fun t => t.completed)
  let newTasks := sm.state.tasks.filter (fun t => !t.completed)
  (completedTasks.length,
    setState sm { tasks := some newTasks } (some (.clearCompletedAct completedTasks.length)))

/-- `StateManager.bulkComplete(taskIds)`. -/
def bulkComplete (sm : SM) (taskIds : List String) (now : Nat) : SM :=
  let newTasks := sm.state.tasks.map (fun task =>
    if taskIds.contains task.id then { task with completed := true, updatedAt := now }
    else task)
  setState sm { tasks := some newTasks } (some (.bulkCompleteAct taskIds))

/-- `StateManager.bulkDelete(taskIds)`: one recorded action, then the ids
are evicted from the live state's `selectedTasks`. -/
def bulkDelete (sm : SM) (taskIds : List String) : SM :=
  let newTasks := sm.state.tasks.filter (fun task => !taskIds.contains task.id)
  let sm1 := setState sm { tasks := some newTasks } (some (.bulkDeleteAct taskIds))
  { sm1 with state :=
      { sm1.state with selectedTasks := sm1.state.selectedTasks.filter (fun i => !taskIds.contains i) } }

/-- `StateManager.bulkSetPriority(taskIds, priority)`. -/
def bulkSetPriority (sm : SM) (taskIds : List String) (priority : String)
    (now : Nat) : SM :=
  let newTasks := sm.state.tasks.map (fun task =>
    if taskIds.contains task.id then { task with priority := priority, updatedAt := now }
    else task)
  setState sm { tasks := some newTasks } (some (.bulkSetPriorityAct taskIds priority))

/-- `StateManager.executeAction(action)`: the redo replay `switch`.  Only
the four single-task action types have cases; every other recorded action
(the bulk actions and `CLEAR_COMPLETED`) falls through and the state is left
untouched (the source marks the spot `// Add more action types as needed`).
`now`/`newId` feed the timestamp and id generation of the replayed call. -/
def executeAction (sm : SM) (a : Action) (now : Nat) (newId : String) : SM :=
  match a with
  | .addTaskAct task => (addTask sm (draftOfTask task) false now newId).2
  | .updateTaskAct taskId updates => (updateTask sm taskId updates false now).2
  | .deleteTaskAct taskId => deleteTask sm taskId false
  | .toggleCompleteAct taskId => (toggleTaskComplete sm taskId false now).2
  | _ => sm

/-- `StateManager.undo()`: restore the snapshot at `historyIndex`,
decrement the index, and re-enter `setState` with the `UNDO` marker (which
is not recorded).  Returns the `true`/`false` result; `none` models the
unreachable out-of-range read (`historyIndex` never exceeds the log). -/
def undo (sm : SM) : Option (SM × Bool) :=
  if 0 ≤ sm.historyIndex then
    match sm.history.get? sm.historyIndex.toNat with
    | some entry =>
        let sm1 : SM := { sm with historyIndex := sm.historyIndex - 1 }
        some (setState sm1 (fullUpdate entry.1) (some .undoAct), true)
    | none => none
  else some (sm, false)

/-- `StateManager.redo()`: fails when the index is already at the last
entry; otherwise advances the index and replays the stored action descriptor
through `executeAction`. -/
def redo (sm : SM) (now : Nat) (newId : String) : Option (SM × Bool) :=
  if sm.historyIndex < (sm.history.length : Int) - 1 then
    let sm1 : SM := { sm with historyIndex := sm.historyIndex + 1 }
    match sm1.history.get? sm1.historyIndex.toNat with
    | some entry => some (executeAction sm1 entry.2 now newId, true)
    | none => none
  else some (sm, false)

/-- One step of the merge loop in `Storage.importData`: look the incoming
task's id up in the accumulated list; replace the first match only when the
incoming `updatedAt` is strictly later, otherwise push the incoming task at
the end.  The inner `none` branch is unreachable (`findIdx?` is in range). -/
def mergeOne (acc : List Task) (importedTask : Task) : List Task :=
  match acc.findIdx? (fun t => t.id == importedTask.id) with
  | some i =>
      match acc.get? i with
      | some t =>
          if t.updatedAt < importedTask.updatedAt then acc.set i importedTask else acc
      | none => acc
  | none => acc ++ [importedTask]

/-- The `importedData.tasks.forEach` loop of `Storage.importData`, started
from a copy of the existing tasks. -/
def mergeTasks (existing importedTasks : List Task) : List Task :=
  importedTasks.foldl mergeOne existing

/-- `Storage.importData` restricted to the task payload: `none` models a
`tasks` field that is missing or not an array (`Array.isArray` fails), which
throws `'Invalid data format'`; otherwise the merged task list is produced
(and then saved and returned with the other snapshot fields spread in). -/
def importData (existing : List Task) (payload : Option (List Task)) :
    Except String (List Task) :=
  match payload with
  | none => .error "Invalid data format"
  | some importedTasks => .ok (mergeTasks existing importedTasks)

/-- The splice `allTasks.splice(newIndex, 0, removed)`: insert at index
(clamped to the ends, as `splice` does for in-range arguments). -/
def spliceInsert (l : List Task) (i : Nat) (x : Task) : List Task :=
  l.take i ++ x :: l.drop i

/-- Renumbering loop of `UI.reorderTasks`:
`allTasks.forEach((task, index) => { task.order = index; task.updatedAt = now })`. -/
def renumber (now : Nat) : Nat → List Task → List Task
  | _, [] => []
  | i, t :: ts => { t with order := i, updatedAt := now } :: renumber now (i + 1) ts

/-- `UI.reorderTasks(draggedTask, targetTask, event)` acting on the task
list, with `insertAfter` already extracted from the drop event.  Note the
source computes `insertAfter ? targetIndex : targetIndex` — both branches
the same index.  Callers guarantee both ids are present and distinct (the
`none` branch models the out-of-range splice that cannot occur then); the
result is fed to `setState({ tasks })` with no recorded action. -/
def reorderTasks (tasks : List Task) (draggedId targetId : String)
    (insertAfter : Bool) (now : Nat) : List Task :=
  let draggedIndex := tasks.findIdx (fun t => t.id == draggedId)
  let targetIndex := tasks.findIdx (fun t => t.id == targetId)
  match tasks.get? draggedIndex with
  | none => tasks
  | some removed =>
      let rest := tasks.eraseIdx draggedIndex
      let newIndex := if insertAfter then targetIndex else targetIndex
      renumber now 0 (spliceInsert rest newIndex removed)

/-- Decidable equality of `Except` results, for evaluating `importData` at
concrete inputs. -/
instance {ε α : Type} [DecidableEq ε] [DecidableEq α] : DecidableEq (Except ε α) := fun x y =>
  match x, y with
  | .ok a, .ok b =>
      if h : a = b then .isTrue (by rw [h]) else .isFalse (fun hc => h (Except.ok.inj hc))
  | .error a, .error b =>
      if h : a = b then .isTrue (by rw [h]) else .isFalse (fun hc => h (Except.error.inj hc))
  | .ok _, .error _ => .isFalse (fun hc => Except.noConfusion hc)
  | .error _, .ok _ => .isFalse (fun hc => Except.noConfusion hc)

/-- Closed form of the import-merge decision for one local task: if the
imported list carries a task with the same id, keep whichever has the later
`updatedAt`, the local one winning ties; otherwise keep the local task. -/
def lwwUpd (importedTasks : List Task) (t : Task) : Task :=
  match importedTasks.find? (fun im => im.id == t.id) with
  | some im => if t.updatedAt < im.updatedAt then im else t
  | none => t

/-- Observation of an `undo` call: its success flag and the task list it
leaves behind. -/
def undoTasksResult (sm : SM) : Option (List Task × Bool) :=
  (undo sm).map (fun r => (r.1.state.tasks, r.2))

/-- Iterated `addToHistory` over a list of recorded `(prevState, action)`
entries, for reasoning about a sequence of undoable actions. -/
def recordAll (entries : List HEntry) (p : List HEntry × Int) : List HEntry × Int :=
  match entries with
  | [] => p
  | e :: es => recordAll es (addToHistory p.1 p.2 e.1 e.2)

/-- A minimal concrete task used by the concrete evaluations below. -/
def baseTask : Task :=
  { id := "a", title := "t", notes := "", completed := false, createdAt := 1,
    updatedAt := 1, dueAt := none, priority := "", tags := [], parentId := none,
    order := 0 }

/-- A concrete state with the given task list and cached projection, default
filters (`all`/`created`), nothing selected, load finished. -/
def baseState (ts fs : List Task) : AppState :=
  { tasks := ts, filteredTasks := fs, selectedTasks := [], currentFilter := "all",
    currentSort := "created", searchQuery := "", activeTagFilters := [],
    theme := "auto", isLoading := false, editingTask := none }

/-- C1 scenario, step 0: one uncompleted task, empty history. -/
def c1sm0 : SM := { state := baseState [baseTask] [baseTask], history := [], historyIndex := -1 }

/-- C1 scenario, step 1: the recorded bulk-complete action. -/
def c1sm1 : SM := bulkComplete c1sm0 ["a"] 5

/-- C1 scenario, step 2: after `undo()`. -/
def c1sm2 : SM := ((undo c1sm1).map Prod.fst).getD c1sm1

/-- C1 scenario, step 3: after `redo()`. -/
def c1sm3 : SM := ((redo c1sm2 9 "fresh").map Prod.fst).getD c1sm2

/-- C4 scenario: two tasks whose `created` order and `title` order differ. -/
def c4t1 : Task := { baseTask with id := "1", title := "a" }

/-- C4 scenario: the younger task, titled so that title order reverses. -/
def c4t2 : Task :=
  { baseTask with id := "2", title := "b", createdAt := 2, updatedAt := 2, order := 1 }

/-- C4 scenario: state sorted by `created`, with its projection cached. -/
def c4sm : SM :=
  { state := baseState [c4t1, c4t2] [c4t2, c4t1], history := [], historyIndex := -1 }

/-- C4 scenario: after a sort-only `setState`. -/
def c4sm1 : SM := setState c4sm { currentSort := some "title" } none

/-- C5 tie scenario: the local task. -/
def c5local : Task := { baseTask with id := "x", title := "local", updatedAt := 5 }

/-- C5 tie scenario: an incoming task with the same id and the same
`updatedAt` but different content. -/
def c5incoming : Task := { baseTask with id := "x", title := "incoming", updatedAt := 5 }

/-- C6 scenario: a task titled `milk`, searched with the query `" milk"`. -/
def c6milk : Task := { baseTask with id := "m", title := "milk" }

/-- C7 scenario: three tasks in order a, b, c. -/
def c7tasks : List Task :=
  [{ baseTask with id := "a", title := "a" },
   { baseTask with id := "b", title := "b", createdAt := 2, updatedAt := 2, order := 1 },
   { baseTask with id := "c", title := "c", createdAt := 3, updatedAt := 3, order := 2 }]

/-- C9 scenario: a manager holding the single task `baseTask`. -/
def c9sm : SM := { state := baseState [baseTask] [baseTask], history := [], historyIndex := -1 }

/-- C10 scenario: a filler history entry. -/
def c10entry : HEntry := (baseState [] [], Action.deleteTaskAct "q")

/-- C10 scenario: a manager whose history is at the 10-entry cap. -/
def c10full : SM :=
  { state := baseState [baseTask] [baseTask], history := List.replicate 10 c10entry,
    historyIndex := 9 }

/-- C3 witness fixture: a fresh manager with empty history. -/
def c3sm : SM := { state := baseState [] [], history := [], historyIndex := -1 }

/-- C5 witness fixture: a local task that the import updates. -/
def c5exA : Task := { baseTask with id := "p", updatedAt := 3 }

/-- C5 witness fixture: a local task the import does not mention. -/
def c5exB : Task := { baseTask with id := "q", title := "other", createdAt := 2, updatedAt := 4 }

/-- C5 witness fixture: an incoming task with a strictly newer `updatedAt`
for the same id as `c5exA`. -/
def c5imA : Task := { baseTask with id := "p", title := "newer", updatedAt := 9 }

/-- C5 witness fixture: an incoming task with a fresh id. -/
def c5imC : Task := { baseTask with id := "r", title := "brand", updatedAt := 1 }

/-- C8 witness fixture: a manager holding only `baseTask`. -/
def c8sm : SM := { state := baseState [baseTask] [baseTask], history := [], historyIndex := -1 }

/-- C9 witness fixture: an update carrying only a new title. -/
def c9u : Updates := { title := some "renamed" }

/-- C10 witness fixture: a manager with one task, a full 10-entry log, and
the position in mid-log at index 5 (as after recording 10 actions and then
undoing 4), so a new record truncates the redo branch and advances. -/
def c10sm : SM :=
  { state := baseState [baseTask] [baseTask], history := List.replicate 10 c10entry,
    historyIndex := 5 }

/-- C1: the undo/redo round trip fails on the code.  Recording
`bulkComplete(["a"])` takes the one-task state S (task uncompleted) to S'
(task completed).  `undo()` does restore S, but `redo()` — although it
returns `true` and advances the history index — replays nothing, because
`executeAction`'s switch has no case for `BULK_COMPLETE`; the resulting
state keeps the task uncompleted, so it is not observationally equal to S'. -/
theorem c1_bulk_redo_gap :
    c1sm1.state.tasks.map (fun t => t.completed) = [true] ∧
    undo c1sm1 = some (c1sm2, true) ∧
    c1sm2.state.tasks.map (fun t => t.completed) = [false] ∧
    redo c1sm2 9 "fresh" = some (c1sm3, true) ∧
    c1sm3.state.tasks.map (fun t => t.completed) = [false] ∧
    c1sm3.state.tasks ≠ c1sm1.state.tasks := by decide

/-- C4: after a `setState` that only changes `currentSort`, `filteredTasks`
is stale.  The recompute condition in `setState` checks `tasks`,
`currentFilter`, `searchQuery` and `activeTagFilters` but not `currentSort`,
so the cached projection keeps the old `created` order `[c4t2, c4t1]` while
the projection under the new state would be the title order `[c4t1, c4t2]`. -/
theorem c4_sort_only_stale :
    c4sm.state.filteredTasks = updateFilteredTasks c4sm.state ∧
    c4sm1.state.currentSort = "title" ∧
    c4sm1.state.filteredTasks = [c4t2, c4t1] ∧
    updateFilteredTasks c4sm1.state = [c4t1, c4t2] ∧
    c4sm1.state.filteredTasks ≠ updateFilteredTasks c4sm1.state := by decide

/-- C5 counterexample: on an `updatedAt` tie the merge keeps the local task,
not the incoming one.  The claim says the incoming version is taken whenever
it is not the case that T1 > T2, which at T1 = T2 would put `c5incoming`
into the result; the code's strict `>` comparison keeps `c5local`. -/
theorem c5_tie_counterexample :
    importData [c5local] (some [c5incoming]) = .ok [c5local] ∧
    c5local.updatedAt = c5incoming.updatedAt ∧
    c5local ≠ c5incoming := by decide

/-- C6 counterexample: the search query is trimmed only for the emptiness
check, not for matching.  With query `" milk"` and a task titled `"milk"`,
the trimmed query `"milk"` is a substring of the title, so the claim keeps
the task; the code matches with the untrimmed `" milk"` and drops it. -/
theorem c6_untrimmed_counterexample :
    searchFilter " milk" [c6milk] = [] ∧
    jsTrim " milk" ≠ "" ∧
    strIncludes (jsToLowerStr c6milk.title) (jsToLowerStr (jsTrim " milk")) = true := by decide

/-- C7: `insertAfter` does not select the insertion side.  Dragging task
`"c"` onto target `"a"` with `insertAfter = true` should, per the claim,
put the dragged task after the target: ids `["a", "c", "b"]`.  The code's
`insertAfter ? targetIndex : targetIndex` uses the same index either way,
and the dragged task lands before the target: `["c", "a", "b"]`.  The
renumbering half of the claim does hold: orders end up `0..n-1` and every
`updatedAt` is refreshed. -/
theorem c7_insert_side_ignored :
    (reorderTasks c7tasks "c" "a" true 9).map (fun t => t.id) = ["c", "a", "b"] ∧
    ["c", "a", "b"] ≠ ["a", "c", "b"] ∧
    (reorderTasks c7tasks "c" "a" true 9).map (fun t => t.order) = [0, 1, 2] ∧
    (reorderTasks c7tasks "c" "a" true 9).map (fun t => t.updatedAt) = [9, 9, 9] := by decide

/-- C9 counterexample: `updateTask` spreads arbitrary `partialFields` over
the task, so an update carrying an `id` key changes the task's id, which the
claim says is kept unchanged on every call. -/
theorem c9_id_overwrite_counterexample :
    (updateTask c9sm "a" { id := some "z" } true 7).2.state.tasks.map (fun t => t.id) = ["z"] ∧
    ["z"] ≠ ["a"] := by decide

/-- C10 counterexample: deleting a missing id from a manager whose history
is already at the 10-entry cap appends the `DELETE_TASK` entry by sliding
the window, and the position counter stays at 9 instead of advancing to 10
as the claim states. -/
theorem c10_capacity_counterexample :
    (deleteTask c10full "zz" true).historyIndex = 9 ∧
    c10full.historyIndex = 9 ∧
    c10full.history.length = 10 ∧
    (deleteTask c10full "zz" true).history.length = 10 ∧
    (deleteTask c10full "zz" true).state.tasks = c10full.state.tasks := by decide

/-- Correctness of the substring routine: `listContainsSub hay sub` holds
exactly when `sub` occurs contiguously inside `hay`. -/
theorem listContainsSub_iff (hay sub : List Char) :
    listContainsSub hay sub = true ↔ sub <:+: hay := by
  induction hay with
  | nil => simp [listContainsSub, List.isEmpty_iff, List.infix_nil]
  | cons c t ih =>
      simp [listContainsSub, Bool.or_eq_true, List.isPrefixOf_iff_prefix, ih,
        List.infix_cons_iff]

/-- C6 (amended): the search stage keeps exactly the tasks in which the
lowercased, untrimmed query occurs as a substring of the title, of a
non-empty notes field, or of some tag; trimming is used only for the
emptiness gate, so a query that is empty or whitespace-only passes every
task through. -/
theorem c6_search_membership (searchQuery : String) (ts : List Task) (t : Task) :
    t ∈ searchFilter searchQuery ts ↔
      t ∈ ts ∧ (jsTrim searchQuery = "" ∨
        ((jsToLowerStr searchQuery).data <:+: (jsToLowerStr t.title).data ∨
         (t.notes ≠ "" ∧ (jsToLowerStr searchQuery).data <:+: (jsToLowerStr t.notes).data) ∨
         (∃ tag ∈ t.tags, (jsToLowerStr searchQuery).data <:+: (jsToLowerStr tag).data))) := by
  unfold searchFilter
  by_cases h : jsTrim searchQuery = ""
  · simp [h]
  · rw [if_pos (by simp [bne_iff_ne, h])]
    simp [List.mem_filter, matchesSearch, strIncludes, listContainsSub_iff,
      Bool.or_eq_true, Bool.and_eq_true, List.any_eq_true, bne_iff_ne, h]
    exact fun _ => or_assoc

/-- C8: calling `updateTask` or `toggleTaskComplete` with an id that no task
carries returns the `false`-equivalent `none` and leaves the whole manager —
tasks, `filteredTasks`, and the history log — untouched. -/
theorem c8_missing_id_noop (sm : SM) (taskId : String) (u : Updates) (now : Nat)
    (h : ∀ t ∈ sm.state.tasks, t.id ≠ taskId) :
    updateTask sm taskId u true now = (none, sm) ∧
    toggleTaskComplete sm taskId true now = (none, sm) := by
  have hfi : sm.state.tasks.findIdx? (fun t => t.id == taskId) = none := by
    rw [List.findIdx?_eq_none_iff]
    intro t ht
    simpa using h t ht
  have hfd : sm.state.tasks.find? (fun t => t.id == taskId) = none := by
    rw [List.find?_eq_none]
    intro t ht
    simpa using h t ht
  exact ⟨by simp [updateTask, hfi], by simp [toggleTaskComplete, hfd]⟩

/-- Witness for C8 at a concrete manager and id. -/
theorem c8_missing_id_noop_witness :
    (∀ t ∈ c8sm.state.tasks, t.id ≠ "zz") ∧
    updateTask c8sm "zz" {} true 3 = (none, c8sm) ∧
    toggleTaskComplete c8sm "zz" true 3 = (none, c8sm) :=
  ⟨by decide, (c8_missing_id_noop c8sm "zz" {} 3 (by decide)).1,
    (c8_missing_id_noop c8sm "zz" {} 3 (by decide)).2⟩

/-- After any `addToHistory` call from a well-formed position (`-1 ≤ idx`
and `idx` at most the last entry), the position is the index of the last
log entry. -/
theorem addToHistory_snd (hist : List HEntry) (idx : Int) (ps : AppState) (a : Action)
    (h1 : -1 ≤ idx) (h2 : idx ≤ (hist.length : Int) - 1) :
    (addToHistory hist idx ps a).2 = ((addToHistory hist idx ps a).1.length : Int) - 1 := by
  simp only [addToHistory, historySize] at *
  split
  · split
    all_goals
      simp_all only [List.length_drop, List.length_append, List.length_take,
        List.length_cons, List.length_nil]
      push_cast at *
      omega
  · split
    all_goals
      simp_all only [List.length_drop, List.length_append, List.length_take,
        List.length_cons, List.length_nil]
      push_cast at *
      omega

/-- `addToHistory` at the end of the log: append the entry; if the log was
full, slide the window without advancing the position, else advance it. -/
theorem addToHistory_at_end (hist : List HEntry) (ps : AppState) (a : Action) :
    addToHistory hist ((hist.length : Int) - 1) ps a =
      if hist.length < historySize
      then (hist ++ [(ps, a)], (hist.length : Int))
      else ((hist ++ [(ps, a)]).drop 1, (hist.length : Int) - 1) := by
  simp only [addToHistory]
  rw [if_neg (lt_irrefl ((hist.length : Int) - 1))]
  by_cases h : hist.length < historySize
  · rw [if_neg (by simp only [historySize, List.length_append, List.length_cons,
      List.length_nil] at h ⊢; push_cast; omega), if_pos h]
    simp only [Prod.mk.injEq, true_and]
    omega
  · rw [if_pos (by simp only [historySize, List.length_append, List.length_cons,
      List.length_nil] at h ⊢; push_cast; omega), if_neg h]

/-- C3: after any recorded action enters the log through `setState`, the
history position points at the last entry, so `redo()` immediately fails
with `false`, returning the manager unchanged.  In particular, after a
successful `undo()` (which keeps the position well-formed) followed by any
new recorded action, the discarded future branch cannot be redone. -/
theorem c3_branch_invalidation (sm : SM) (u : StateUpdate) (a : Action) (now : Nat)
    (newId : String) (hrec : recordable a = true)
    (h1 : -1 ≤ sm.historyIndex) (h2 : sm.historyIndex ≤ (sm.history.length : Int) - 1) :
    (setState sm u (some a)).historyIndex =
      ((setState sm u (some a)).history.length : Int) - 1 ∧
    redo (setState sm u (some a)) now newId = some (setState sm u (some a), false) := by
  have hh : (setState sm u (some a)).history =
      (addToHistory sm.history sm.historyIndex (deepCloneState sm.state) a).1 := by
    simp [setState, hrec]
  have hi : (setState sm u (some a)).historyIndex =
      (addToHistory sm.history sm.historyIndex (deepCloneState sm.state) a).2 := by
    simp [setState, hrec]
  have hend := addToHistory_snd sm.history sm.historyIndex (deepCloneState sm.state) a h1 h2
  refine ⟨by rw [hi, hh]; exact hend, ?_⟩
  unfold redo
  rw [if_neg]
  rw [hi, hh, hend]
  exact lt_irrefl _

/-- Witness for C3 at a concrete manager, update and action. -/
theorem c3_branch_invalidation_witness :
    recordable (Action.deleteTaskAct "x") = true ∧
    (-1 : Int) ≤ c3sm.historyIndex ∧
    c3sm.historyIndex ≤ (c3sm.history.length : Int) - 1 ∧
    ((setState c3sm {} (some (Action.deleteTaskAct "x"))).historyIndex =
      ((setState c3sm {} (some (Action.deleteTaskAct "x"))).history.length : Int) - 1 ∧
    redo (setState c3sm {} (some (Action.deleteTaskAct "x"))) 0 "n" =
      some (setState c3sm {} (some (Action.deleteTaskAct "x")), false)) :=
  ⟨by decide, by decide, by decide,
    c3_branch_invalidation c3sm {} (Action.deleteTaskAct "x") 0 "n"
      (by decide) (by decide) (by decide)⟩

/-- Sliding-window behaviour of iterated recording: starting at the end of
any log within the size bound, recording a sequence of entries leaves the
last `historySize` entries of the concatenated log, with the position at the
window's end. -/
theorem recordAll_sliding (entries : List HEntry) :
    ∀ hist : List HEntry, hist.length ≤ historySize →
      recordAll entries (hist, (hist.length : Int) - 1) =
        ((hist ++ entries).drop (hist.length + entries.length - historySize),
          ((((hist ++ entries).drop
              (hist.length + entries.length - historySize)).length : Int)) - 1) := by
  induction entries with
  | nil =>
      intro hist h
      simp only [recordAll, List.append_nil, List.length_nil, Nat.add_zero]
      rw [Nat.sub_eq_zero_of_le h, List.drop_zero]
  | cons e es ih =>
      intro hist h
      show recordAll es (addToHistory hist ((hist.length : Int) - 1) e.1 e.2) = _
      rw [addToHistory_at_end]
      by_cases hfull : hist.length < historySize
      · rw [if_pos hfull]
        have hlen1 : (hist ++ [(e.1, e.2)]).length ≤ historySize := by
          simp only [List.length_append, List.length_cons, List.length_nil]
          omega
        have hcast : (hist.length : Int) = ((hist ++ [(e.1, e.2)]).length : Int) - 1 := by
          simp only [List.length_append, List.length_cons, List.length_nil]
          push_cast
          omega
        rw [hcast, ih (hist ++ [(e.1, e.2)]) hlen1]
        have hw : ((hist ++ [(e.1, e.2)]) ++ es).drop
            ((hist ++ [(e.1, e.2)]).length + es.length - historySize) =
            (hist ++ e :: es).drop (hist.length + (e :: es).length - historySize) := by
          rw [List.append_assoc, List.singleton_append]
          simp only [List.length_append, List.length_cons, List.length_nil]
          congr 1
          omega
        rw [hw]
      · have hfe : hist.length = historySize := le_antisymm h (not_lt.mp hfull)
        rw [if_neg hfull]
        have hlen2 : ((hist ++ [(e.1, e.2)]).drop 1).length ≤ historySize := by
          simp only [List.length_drop, List.length_append, List.length_cons,
            List.length_nil]
          omega
        have hcast : (hist.length : Int) - 1 =
            ((((hist ++ [(e.1, e.2)]).drop 1).length : Int)) - 1 := by
          simp only [List.length_drop, List.length_append, List.length_cons,
            List.length_nil]
          push_cast
          omega
        rw [hcast, ih ((hist ++ [(e.1, e.2)]).drop 1) hlen2]
        have hw : ((hist ++ [(e.1, e.2)]).drop 1 ++ es).drop
            (((hist ++ [(e.1, e.2)]).drop 1).length + es.length - historySize) =
            (hist ++ e :: es).drop (hist.length + (e :: es).length - historySize) := by
          have hidx : ((hist ++ [(e.1, e.2)]).drop 1).length + es.length - historySize
              = es.length := by
            simp only [List.length_drop, List.length_append, List.length_cons,
              List.length_nil]
            omega
          have hzero : (1 : Nat) - (hist ++ [(e.1, e.2)]).length = 0 := by
            simp only [List.length_append, List.length_cons, List.length_nil]
            omega
          have hA := @List.drop_append_eq_append_drop HEntry (hist ++ [(e.1, e.2)]) es 1
          rw [hzero, List.drop_zero] at hA
          have hx : hist ++ e :: es = (hist ++ [(e.1, e.2)]) ++ es := by
            rw [List.append_assoc, List.singleton_append]
          have hidx2 : hist.length + (e :: es).length - historySize = 1 + es.length := by
            simp only [List.length_cons]
            omega
          rw [hidx, ← hA, List.drop_drop, hx, hidx2]
        rw [hw]

/-- C2: from an empty history, recording `n` undoable actions keeps the log
at `min n 10` entries — only the last 10 recorded entries are retained, the
oldest dropped — and the position is the last entry's index.  For `n = 11`
this is exactly 10 recoverable undo steps, the first recorded action having
been discarded. -/
theorem c2_history_bound (entries : List HEntry) :
    (recordAll entries ([], -1)).1 = entries.drop (entries.length - historySize) ∧
    (recordAll entries ([], -1)).1.length = min entries.length historySize ∧
    (recordAll entries ([], -1)).2 = ((min entries.length historySize : Nat) : Int) - 1 := by
  have h := recordAll_sliding entries [] (by simp [historySize])
  simp only [List.length_nil, Nat.cast_zero, zero_sub, List.nil_append, Nat.zero_add] at h
  have hlen : (entries.drop (entries.length - historySize)).length =
      min entries.length historySize := by
    simp only [List.length_drop]
    omega
  refine ⟨?_, ?_, ?_⟩
  · rw [h]
  · rw [h, hlen]
  · rw [h]
    simp only [hlen]

/-- C9 (amended): when `updateTask` finds the task (at the first index whose
id matches) and the partial fields carry neither an `id` nor a `createdAt`
key — as every in-app caller guarantees — the call returns the merged task,
which keeps the original `id` and `createdAt`, takes `updatedAt := now`
regardless of the supplied fields, and the new collection is the old one
with only position `i` replaced (every other task unchanged). -/
theorem c9_update_preserves (sm : SM) (taskId : String) (u : Updates) (now : Nat)
    (i : Nat) (old : Task)
    (hfind : sm.state.tasks.findIdx? (fun t => t.id == taskId) = some i)
    (hget : sm.state.tasks.get? i = some old)
    (hid : u.id = none) (hca : u.createdAt = none) :
    (updateTask sm taskId u true now).1 =
      some { applyUpdates old u with updatedAt := now } ∧
    (updateTask sm taskId u true now).2.state.tasks =
      sm.state.tasks.set i { applyUpdates old u with updatedAt := now } ∧
    (applyUpdates old u).id = old.id ∧
    (applyUpdates old u).createdAt = old.createdAt ∧
    ({ applyUpdates old u with updatedAt := now } : Task).updatedAt = now := by
  have hget' : sm.state.tasks[i]? = some old := by
    rw [← List.get?_eq_getElem?]
    exact hget
  refine ⟨?_, ?_, ?_, ?_, rfl⟩
  · simp [updateTask, hfind, hget']
  · simp [updateTask, hfind, hget', setState, applyUpdate, recomputeGate]
  · simp [applyUpdates, hid]
  · simp [applyUpdates, hca]

/-- Witness for C9 at a concrete manager, task and title-only update. -/
theorem c9_update_preserves_witness :
    c9sm.state.tasks.findIdx? (fun t => t.id == "a") = some 0 ∧
    c9sm.state.tasks.get? 0 = some baseTask ∧
    c9u.id = none ∧
    c9u.createdAt = none ∧
    ((updateTask c9sm "a" c9u true 7).1 =
      some { applyUpdates baseTask c9u with updatedAt := 7 } ∧
    (updateTask c9sm "a" c9u true 7).2.state.tasks =
      c9sm.state.tasks.set 0 { applyUpdates baseTask c9u with updatedAt := 7 } ∧
    (applyUpdates baseTask c9u).id = baseTask.id ∧
    (applyUpdates baseTask c9u).createdAt = baseTask.createdAt ∧
    ({ applyUpdates baseTask c9u with updatedAt := 7 } : Task).updatedAt = 7) :=
  ⟨by decide, by decide, by decide, by decide,
    c9_update_preserves c9sm "a" c9u 7 0 baseTask
      (by decide) (by decide) (by decide) (by decide)⟩

/-- Re-entering `setState` with a whole snapshot (as `undo` does) makes the
snapshot's task list the current one; the recompute only rewrites
`filteredTasks`. -/
theorem setState_full_tasks (sm : SM) (p : AppState) :
    (setState sm (fullUpdate p) (some .undoAct)).state.tasks = p.tasks := by
  simp [setState, fullUpdate, applyUpdate, recomputeGate, recordable]

/-- A successful `undo` reports `true` and restores the task list of the
snapshot stored at the current position. -/
theorem undo_after (sm : SM) (p : AppState) (a : Action)
    (h0 : 0 ≤ sm.historyIndex)
    (hent : sm.history.get? sm.historyIndex.toNat = some (p, a)) :
    undoTasksResult sm = some (p.tasks, true) := by
  unfold undoTasksResult undo
  rw [if_pos h0]
  simp only [hent, Option.map_some']
  rw [setState_full_tasks]

/-- Components of `deleteTask` when the filter removes nothing: the task
list survives and the history pair is exactly the `addToHistory` result. -/
theorem deleteTask_core (sm : SM) (taskId : String)
    (hfil : sm.state.tasks.filter (fun t => t.id != taskId) = sm.state.tasks) :
    (deleteTask sm taskId true).state.tasks = sm.state.tasks ∧
    (deleteTask sm taskId true).history =
      (addToHistory sm.history sm.historyIndex (deepCloneState sm.state)
        (Action.deleteTaskAct taskId)).1 ∧
    (deleteTask sm taskId true).historyIndex =
      (addToHistory sm.history sm.historyIndex (deepCloneState sm.state)
        (Action.deleteTaskAct taskId)).2 := by
  refine ⟨?_, ?_, ?_⟩ <;>
    simp [deleteTask, setState, applyUpdate, recomputeGate, recordable, hfil]

/-- Full characterisation of `addToHistory` from any position satisfying the
manager's history invariant (`-1 ≤ idx ≤ length - 1`, `length ≤ 10`): the
entries after the position are discarded, the new entry is appended, and the
position advances except when it already sat at index 9, where the oldest
entry is dropped instead.  (When `idx` is already at the end,
`take (idx + 1).toNat` is the whole log, so the uniform form agrees with the
code's untruncated branch.) -/
theorem addToHistory_general (hist : List HEntry) (idx : Int) (ps : AppState) (a : Action)
    (h1 : -1 ≤ idx) (h2 : idx ≤ (hist.length : Int) - 1) :
    addToHistory hist idx ps a =
      if idx + 1 < (historySize : Int)
      then (hist.take (idx + 1).toNat ++ [(ps, a)], idx + 1)
      else ((hist.take (idx + 1).toNat ++ [(ps, a)]).drop 1, idx) := by
  have htlen : (hist.take (idx + 1).toNat).length = (idx + 1).toNat := by
    rw [List.length_take]
    omega
  simp only [addToHistory]
  by_cases hlt : idx < (hist.length : Int) - 1
  · rw [if_pos hlt]
    have hcond : ((historySize : Int) <
        ((hist.take (idx + 1).toNat ++ [(ps, a)]).length : Int)) ↔
        ¬ (idx + 1 < (historySize : Int)) := by
      simp only [List.length_append, htlen, List.length_cons, List.length_nil,
        historySize]
      push_cast
      omega
    by_cases hadv : idx + 1 < (historySize : Int)
    · rw [if_neg (fun hb => (hcond.mp hb) hadv), if_pos hadv]
    · rw [if_pos (hcond.mpr hadv), if_neg hadv]
  · rw [if_neg hlt]
    have hth : hist.take (idx + 1).toNat = hist := by
      have he : (idx + 1).toNat = hist.length := by omega
      rw [he, List.take_length]
    rw [hth]
    have hcond : ((historySize : Int) < ((hist ++ [(ps, a)]).length : Int)) ↔
        ¬ (idx + 1 < (historySize : Int)) := by
      simp only [List.length_append, List.length_cons, List.length_nil, historySize]
      push_cast
      omega
    by_cases hadv : idx + 1 < (historySize : Int)
    · rw [if_neg (fun hb => (hcond.mp hb) hadv), if_pos hadv]
    · rw [if_pos (hcond.mpr hadv), if_neg hadv]

/-- C10 (amended): deleting an id that no task carries leaves the task list
unchanged, yet still records a `DELETE_TASK` entry.  From any history state
satisfying the manager's invariant (`-1 ≤ historyIndex ≤ length - 1` and
`length ≤ 10`): any entries after the current position (a pending redo
branch) are discarded and the `DELETE_TASK` entry is appended as the new
last entry, giving a log of `min(historyIndex + 2, 10)` entries; the
position counter advances by one unless it already sat at index 9 — the
last slot of the cap — in which case the oldest entry is dropped and the
counter stays at 9; in both cases a later `undo()` succeeds and restores an
observationally identical task list. -/
theorem c10_delete_missing (sm : SM) (taskId : String)
    (habs : ∀ t ∈ sm.state.tasks, t.id ≠ taskId)
    (h1 : -1 ≤ sm.historyIndex)
    (h2 : sm.historyIndex ≤ (sm.history.length : Int) - 1)
    (h3 : sm.history.length ≤ historySize) :
    (deleteTask sm taskId true).state.tasks = sm.state.tasks ∧
    (deleteTask sm taskId true).history.length =
      min ((sm.historyIndex + 1).toNat + 1) historySize ∧
    ((deleteTask sm taskId true).history.getLast?).map Prod.snd =
      some (Action.deleteTaskAct taskId) ∧
    (deleteTask sm taskId true).historyIndex =
      (if sm.historyIndex + 1 < (historySize : Int) then sm.historyIndex + 1
        else sm.historyIndex) ∧
    undoTasksResult (deleteTask sm taskId true) = some (sm.state.tasks, true) := by
  have hfil : sm.state.tasks.filter (fun t => t.id != taskId) = sm.state.tasks := by
    rw [List.filter_eq_self]
    intro t ht
    simpa [bne_iff_ne] using habs t ht
  obtain ⟨htasks, hhist, hhidx⟩ := deleteTask_core sm taskId hfil
  have hadd := addToHistory_general sm.history sm.historyIndex (deepCloneState sm.state)
    (Action.deleteTaskAct taskId) h1 h2
  have hTlen : (sm.history.take (sm.historyIndex + 1).toNat).length =
      (sm.historyIndex + 1).toNat := by
    rw [List.length_take]
    omega
  by_cases hadv : sm.historyIndex + 1 < (historySize : Int)
  · rw [if_pos hadv] at hadd
    have hh : (deleteTask sm taskId true).history =
        sm.history.take (sm.historyIndex + 1).toNat ++
          [(deepCloneState sm.state, Action.deleteTaskAct taskId)] := by
      rw [hhist, hadd]
    have hx : (deleteTask sm taskId true).historyIndex = sm.historyIndex + 1 := by
      rw [hhidx, hadd]
    refine ⟨htasks, ?_, ?_, ?_, ?_⟩
    · rw [hh]
      simp only [List.length_append, hTlen, List.length_cons, List.length_nil,
        historySize] at *
      omega
    · rw [hh, List.getLast?_concat]
      rfl
    · rw [hx, if_pos hadv]
    · have h0 : 0 ≤ (deleteTask sm taskId true).historyIndex := by
        rw [hx]
        omega
      have htn : (deleteTask sm taskId true).historyIndex.toNat =
          (sm.history.take (sm.historyIndex + 1).toNat).length := by
        rw [hx, hTlen]
      have hent : (deleteTask sm taskId true).history.get?
          (deleteTask sm taskId true).historyIndex.toNat =
          some (deepCloneState sm.state, Action.deleteTaskAct taskId) := by
        rw [hh, htn, List.get?_concat_length]
      rw [undo_after (deleteTask sm taskId true) (deepCloneState sm.state)
        (Action.deleteTaskAct taskId) h0 hent]
      rfl
  · rw [if_neg hadv] at hadd
    have hadv' : ¬ (sm.historyIndex + 1 < (10 : Int)) := by
      simpa [historySize] using hadv
    have h3' : sm.history.length ≤ 10 := h3
    have hTlen10 : (sm.history.take (sm.historyIndex + 1).toNat).length = 10 := by
      rw [hTlen]
      omega
    have hsplit : (sm.history.take (sm.historyIndex + 1).toNat ++
        [(deepCloneState sm.state, Action.deleteTaskAct taskId)]).drop 1 =
        (sm.history.take (sm.historyIndex + 1).toNat).drop 1 ++
          [(deepCloneState sm.state, Action.deleteTaskAct taskId)] := by
      have hd := @List.drop_append_eq_append_drop HEntry
        (sm.history.take (sm.historyIndex + 1).toNat)
        [(deepCloneState sm.state, Action.deleteTaskAct taskId)] 1
      rw [show (1 : Nat) - (sm.history.take (sm.historyIndex + 1).toNat).length = 0
        by omega, List.drop_zero] at hd
      exact hd
    have hh : (deleteTask sm taskId true).history =
        (sm.history.take (sm.historyIndex + 1).toNat).drop 1 ++
          [(deepCloneState sm.state, Action.deleteTaskAct taskId)] := by
      rw [hhist, hadd, hsplit]
    have hx : (deleteTask sm taskId true).historyIndex = sm.historyIndex := by
      rw [hhidx, hadd]
    refine ⟨htasks, ?_, ?_, ?_, ?_⟩
    · rw [hh]
      simp only [List.length_append, List.length_drop, hTlen10, List.length_cons,
        List.length_nil, historySize] at *
      omega
    · rw [hh, List.getLast?_concat]
      rfl
    · rw [hx, if_neg hadv]
    · have h0 : 0 ≤ (deleteTask sm taskId true).historyIndex := by
        rw [hx]
        omega
      have htn : (deleteTask sm taskId true).historyIndex.toNat =
          ((sm.history.take (sm.historyIndex + 1).toNat).drop 1).length := by
        rw [hx]
        simp only [List.length_drop, hTlen10]
        omega
      have hent : (deleteTask sm taskId true).history.get?
          (deleteTask sm taskId true).historyIndex.toNat =
          some (deepCloneState sm.state, Action.deleteTaskAct taskId) := by
        rw [hh, htn, List.get?_concat_length]
      rw [undo_after (deleteTask sm taskId true) (deepCloneState sm.state)
        (Action.deleteTaskAct taskId) h0 hent]
      rfl

/-- Witness for C10 at a concrete manager with a full 10-entry log and the
position in mid-log (index 5), where the delete truncates the redo branch
and advances the counter to 6. -/
theorem c10_delete_missing_witness :
    (∀ t ∈ c10sm.state.tasks, t.id ≠ "zz") ∧
    (-1 : Int) ≤ c10sm.historyIndex ∧
    c10sm.historyIndex ≤ (c10sm.history.length : Int) - 1 ∧
    c10sm.history.length ≤ historySize ∧
    ((deleteTask c10sm "zz" true).state.tasks = c10sm.state.tasks ∧
    (deleteTask c10sm "zz" true).history.length =
      min ((c10sm.historyIndex + 1).toNat + 1) historySize ∧
    ((deleteTask c10sm "zz" true).history.getLast?).map Prod.snd =
      some (Action.deleteTaskAct "zz") ∧
    (deleteTask c10sm "zz" true).historyIndex =
      (if c10sm.historyIndex + 1 < (historySize : Int) then c10sm.historyIndex + 1
        else c10sm.historyIndex) ∧
    undoTasksResult (deleteTask c10sm "zz" true) = some (c10sm.state.tasks, true)) :=
  ⟨by decide, by decide, by decide, by decide,
    c10_delete_missing c10sm "zz" (by decide) (by decide) (by decide) (by decide)⟩

/-- An empty import leaves every local task untouched by `lwwUpd`. -/
theorem lwwUpd_nil (t : Task) : lwwUpd [] t = t := rfl

/-- `lwwUpd` skips an incoming task with a different id. -/
theorem lwwUpd_cons_ne (im : Task) (rest : List Task) (t : Task) (h : im.id ≠ t.id) :
    lwwUpd (im :: rest) t = lwwUpd rest t := by
  have hb : (im.id == t.id) = false := by simpa using h
  simp [lwwUpd, List.find?_cons, hb]

/-- `lwwUpd` keeps a task whose id no incoming task carries. -/
theorem lwwUpd_not_mem (rest : List Task) (t : Task) (h : ∀ r ∈ rest, r.id ≠ t.id) :
    lwwUpd rest t = t := by
  have hf : rest.find? (fun im => im.id == t.id) = none := by
    rw [List.find?_eq_none]
    intro x hx
    simpa using h x hx
  simp [lwwUpd, hf]

/-- Recursive characterisation of one merge step: replace (or keep) the
first task with a matching id, otherwise recurse, appending at the end. -/
theorem mergeOne_cons (t : Task) (ts : List Task) (im : Task) :
    mergeOne (t :: ts) im =
      if t.id == im.id then
        (if t.updatedAt < im.updatedAt then im else t) :: ts
      else t :: mergeOne ts im := by
  by_cases h : (t.id == im.id) = true
  · simp only [mergeOne, List.findIdx?_cons, h, if_true, List.get?_cons_zero,
      List.set_cons_zero]
    split <;> rfl
  · have hb : (t.id == im.id) = false := by simpa using h
    simp only [mergeOne, List.findIdx?_cons, hb, Bool.false_eq_true, if_false,
      List.findIdx?_succ]
    cases hfi : ts.findIdx? (fun x => x.id == im.id) with
    | none => simp [hfi]
    | some j =>
        simp only [hfi, Option.map_some', List.get?_cons_succ, List.set_cons_succ]
        cases hg : ts.get? j with
        | none => simp [hg]
        | some x =>
            simp only [hg]
            by_cases hlt : x.updatedAt < im.updatedAt
            · simp [hlt]
            · simp [hlt]

/-- When no task in the accumulator carries the incoming id, the merge step
appends the incoming task. -/
theorem mergeOne_absent (existing : List Task) (im : Task)
    (h : ∀ t ∈ existing, t.id ≠ im.id) : mergeOne existing im = existing ++ [im] := by
  induction existing with
  | nil => rfl
  | cons t ts ih =>
      have ht : (t.id == im.id) ≠ true := by simpa using h t (List.mem_cons_self t ts)
      rw [mergeOne_cons, if_neg ht, ih (fun x hx => h x (List.mem_cons_of_mem t hx))]
      rfl

/-- When some task in the accumulator carries the incoming id, the merge
step preserves the id sequence. -/
theorem mergeOne_ids (existing : List Task) (im : Task)
    (hex : existing.any (fun t => t.id == im.id) = true) :
    (mergeOne existing im).map (fun t => t.id) = existing.map (fun t => t.id) := by
  induction existing with
  | nil => simp at hex
  | cons t ts ih =>
      rw [mergeOne_cons]
      by_cases h : (t.id == im.id) = true
      · rw [if_pos h]
        have hid : t.id = im.id := by simpa using h
        simp only [List.map_cons]
        congr 1
        split
        · exact hid.symm
        · rfl
      · rw [if_neg h]
        have hb : (t.id == im.id) = false := by simpa using h
        have hex' : ts.any (fun x => x.id == im.id) = true := by
          simpa [List.any_cons, hb] using hex
        simp only [List.map_cons]
        congr 1
        exact ih hex'

/-- Mapping any-over-ids through the id projection. -/
theorem any_over_ids (l : List Task) (q : String → Bool) :
    (l.map (fun t => t.id)).any q = l.any (fun t => q t.id) := by
  induction l with
  | nil => rfl
  | cons t ts ih => simp [List.any_cons, ih]

/-- When the incoming id is present, the merged accumulator mapped through
`lwwUpd rest` is the original accumulator mapped through
`lwwUpd (im :: rest)` — provided local ids are unique and the rest of
the imported list does not repeat the incoming id. -/
theorem mergeOne_map_lww (im : Task) (rest : List Task) :
    ∀ existing : List Task, (existing.map (fun t => t.id)).Nodup →
      (∀ r ∈ rest, r.id ≠ im.id) →
      existing.any (fun t => t.id == im.id) = true →
      (mergeOne existing im).map (lwwUpd rest) =
        existing.map (lwwUpd (im :: rest)) := by
  intro existing
  induction existing with
  | nil =>
      intro _ _ hex
      simp at hex
  | cons t ts ih =>
      intro hnd him hex
      rw [mergeOne_cons]
      rw [List.map_cons, List.nodup_cons] at hnd
      obtain ⟨hta, htsnd⟩ := hnd
      by_cases h : (t.id == im.id) = true
      · rw [if_pos h]
        have hid : t.id = im.id := by simpa using h
        have hhead : lwwUpd rest (if t.updatedAt < im.updatedAt then im else t) =
            (if t.updatedAt < im.updatedAt then im else t) := by
          refine lwwUpd_not_mem rest _ ?_
          intro r hr
          have := him r hr
          split <;> simpa [hid] using this
        have hheadR : lwwUpd (im :: rest) t =
            (if t.updatedAt < im.updatedAt then im else t) := by
          have hb : (im.id == t.id) = true := by simp [hid]
          simp [lwwUpd, List.find?_cons, hb]
        simp only [List.map_cons, hhead, hheadR]
        congr 1
        refine List.map_congr_left ?_
        intro u hu
        have hune : u.id ≠ t.id := by
          intro he
          exact hta (List.mem_map.mpr ⟨u, hu, he⟩)
        exact (lwwUpd_cons_ne im rest u (by rw [← hid]; exact fun he => hune he.symm)).symm
      · rw [if_neg h]
        have hid : t.id ≠ im.id := by simpa using h
        have hb : (t.id == im.id) = false := by simpa using h
        have hex' : ts.any (fun x => x.id == im.id) = true := by
          simpa [List.any_cons, hb] using hex
        simp only [List.map_cons]
        congr 1
        · exact (lwwUpd_cons_ne im rest t (fun he => hid he.symm)).symm
        · exact ih htsnd him hex'

/-- Characterisation of the whole import merge: with unique local ids and
unique incoming ids, each local task is replaced by a strictly newer
incoming task with the same id (kept otherwise, in place), and the incoming
tasks whose ids are new are appended in order. -/
theorem mergeTasks_eq (importedTasks : List Task) :
    ∀ existing : List Task,
      (existing.map (fun t => t.id)).Nodup →
      (importedTasks.map (fun t => t.id)).Nodup →
      mergeTasks existing importedTasks =
        existing.map (lwwUpd importedTasks) ++
          importedTasks.filter (fun im => !existing.any (fun t => t.id == im.id)) := by
  induction importedTasks with
  | nil =>
      intro ex _ _
      have hm : List.map (lwwUpd []) ex = List.map id ex :=
        List.map_congr_left (fun a _ => lwwUpd_nil a)
      simp [mergeTasks, hm]
  | cons im rest ih =>
      intro ex hnex hnimp
      rw [List.map_cons, List.nodup_cons] at hnimp
      obtain ⟨him0, hrest⟩ := hnimp
      have him : ∀ r ∈ rest, r.id ≠ im.id := by
        intro r hr he
        exact him0 (List.mem_map.mpr ⟨r, hr, he⟩)
      show mergeTasks (mergeOne ex im) rest = _
      by_cases hex : ex.any (fun t => t.id == im.id) = true
      · have hnd' : ((mergeOne ex im).map (fun t => t.id)).Nodup := by
          rw [mergeOne_ids ex im hex]
          exact hnex
        rw [ih (mergeOne ex im) hnd' hrest]
        have hmap := mergeOne_map_lww im rest ex hnex him hex
        have hany : ∀ x : Task,
            (mergeOne ex im).any (fun t => t.id == x.id) =
              ex.any (fun t => t.id == x.id) := by
          intro x
          have e1 := any_over_ids (mergeOne ex im) (fun i => i == x.id)
          have e2 := any_over_ids ex (fun i => i == x.id)
          rw [← e1, ← e2, mergeOne_ids ex im hex]
        have hfil : rest.filter (fun x => !(mergeOne ex im).any (fun t => t.id == x.id)) =
            rest.filter (fun x => !ex.any (fun t => t.id == x.id)) := by
          refine List.filter_congr ?_
          intro x _
          rw [hany x]
        have hcons : (im :: rest).filter (fun x => !ex.any (fun t => t.id == x.id)) =
            rest.filter (fun x => !ex.any (fun t => t.id == x.id)) := by
          rw [List.filter_cons]
          simp [hex]
        rw [hmap, hfil, hcons]
      · have habs : ∀ t ∈ ex, t.id ≠ im.id := by
          intro t ht he
          exact hex (List.any_eq_true.mpr ⟨t, ht, by simp [he]⟩)
        have hnd' : ((ex ++ [im]).map (fun t => t.id)).Nodup := by
          rw [List.map_append, List.nodup_append]
          refine ⟨hnex, by simp, ?_⟩
          intro a ha hb
          simp only [List.map_cons, List.map_nil, List.mem_singleton] at hb
          obtain ⟨t, ht, rfl⟩ := List.mem_map.mp ha
          exact habs t ht hb
        rw [mergeOne_absent ex im habs, ih (ex ++ [im]) hnd' hrest]
        have hmap : (ex ++ [im]).map (lwwUpd rest) =
            ex.map (lwwUpd (im :: rest)) ++ [im] := by
          rw [List.map_append]
          congr 1
          · refine List.map_congr_left ?_
            intro u hu
            exact (lwwUpd_cons_ne im rest u (fun he => (habs u hu) he.symm)).symm
          · simp only [List.map_cons, List.map_nil]
            rw [lwwUpd_not_mem rest im him]
        have hfil : rest.filter (fun x => !(ex ++ [im]).any (fun t => t.id == x.id)) =
            rest.filter (fun x => !ex.any (fun t => t.id == x.id)) := by
          refine List.filter_congr ?_
          intro x hx
          have hxb : (im.id == x.id) = false := by
            simpa using Ne.symm (him x hx)
          rw [List.any_append]
          simp [hxb]
        have hcons : (im :: rest).filter (fun x => !ex.any (fun t => t.id == x.id)) =
            im :: rest.filter (fun x => !ex.any (fun t => t.id == x.id)) := by
          rw [List.filter_cons]
          have hf : ex.any (fun t => t.id == im.id) = false := by
            simpa using hex
          simp [hf]
        rw [hmap, hfil, hcons, List.append_assoc, List.singleton_append]

/-- C5 (amended): for an import whose `tasks` field is a sequence, assuming
unique ids on both sides, the merged result keeps each local task in place —
replaced by the incoming task of the same id only when the incoming
`updatedAt` is strictly later (so the local task wins when T1 > T2 and also
on a tie), — and appends, in order, exactly the incoming tasks whose ids are
not present locally; local tasks whose ids the import does not mention are
unchanged. -/
theorem c5_import_merge (existing importedTasks : List Task)
    (h1 : (existing.map (fun t => t.id)).Nodup)
    (h2 : (importedTasks.map (fun t => t.id)).Nodup) :
    importData existing (some importedTasks) =
      .ok (existing.map (lwwUpd importedTasks) ++
        importedTasks.filter (fun im => !existing.any (fun t => t.id == im.id))) := by
  simp only [importData, Except.ok.injEq]
  exact mergeTasks_eq importedTasks existing h1 h2

/-- Witness for C5 at a concrete pair of task lists. -/
theorem c5_import_merge_witness :
    (([c5exA, c5exB].map (fun t => t.id)).Nodup) ∧
    (([c5imA, c5imC].map (fun t => t.id)).Nodup) ∧
    importData [c5exA, c5exB] (some [c5imA, c5imC]) =
      .ok ([c5exA, c5exB].map (lwwUpd [c5imA, c5imC]) ++
        [c5imA, c5imC].filter (fun im => !([c5exA, c5exB].any (fun t => t.id == im.id)))) :=
  ⟨by decide, by decide,
    c5_import_merge [c5exA, c5exB] [c5imA, c5imC] (by decide) (by decide)⟩

end TodoApp
